import Mathlib

/-!
Formal model of the Deatherage Metronome core: the beat-sequencing rule and
the playback-control (timer start/stop/restart) logic, embedded from the
React sources (`src/App.tsx` and its variants in the repository).

Two source variants are relevant and are modelled separately where they
differ:
- the `App.tsx` time-signature variant ("App variant"): no tempo clamping in
  `handleBpmChange`, no try/catch around `playClick`;
- the error-hardened variant ("P1 variant"): clamps the tempo with
  `Math.max(40, Math.min(240, newBpm))` and wraps `playClick` in try/catch.

React closure semantics are embedded explicitly: an event handler runs with
the state values captured at its defining render; `setX` updates the store
but not the handler's captured bindings, and functions defined in the
component body (such as `startMetronome`) read those captured bindings.
-/

namespace Metronome

/-- One beat-sequencer step, from the `setInterval` callback of
`startMetronome`:
`const nextBeat = prevBeat === selectedTimeSignature.beats ? 1 : prevBeat + 1`. -/
def advance (beats prevBeat : Nat) : Nat :=
  if prevBeat = beats then 1 else prevBeat + 1

/-- Accent decision from the same callback: `const isAccent = nextBeat === 1`. -/
def isAccent (beatNumber : Nat) : Bool :=
  beatNumber == 1

/-- Beat position after `n` sequencer steps starting from `start`. -/
def advanceSeq (beats start : Nat) : Nat → Nat
  | 0 => start
  | n + 1 => advance beats (advanceSeq beats start n)

/-- Beat numbers returned by the first `n` sequencer steps after `start`. -/
def advanceTrace (beats start n : Nat) : List Nat :=
  (List.range n).map (fun i => advanceSeq beats start (i + 1))

/-- Claim C1: one advance step returns 1 exactly when the current beat equals
`beatsPerMeasure` and `currentBeat + 1` otherwise; six successive advances
from beat 1 in a 4-beat measure yield the beat numbers 2, 3, 4, 1, 2, 3. -/
theorem advance_step (beats c : Nat) (hb : 1 ≤ beats) (hc1 : 1 ≤ c)
    (hc2 : c ≤ beats) :
    ((c = beats → advance beats c = 1) ∧ (c ≠ beats → advance beats c = c + 1)) ∧
    advanceTrace 4 1 6 = [2, 3, 4, 1, 2, 3] := by
  refine ⟨⟨fun h => ?_, fun h => ?_⟩, by decide⟩
  · simp [advance, h]
  · simp [advance, h]

/-- Witness for C1 at `beats = 4`, `c = 2`. -/
theorem advance_step_witness :
    ((2 = 4 → advance 4 2 = 1) ∧ (2 ≠ 4 → advance 4 2 = 2 + 1)) ∧
    advanceTrace 4 1 6 = [2, 3, 4, 1, 2, 3] :=
  advance_step 4 2 (by decide) (by decide) (by decide)

/-- Claim C2: the accent flag computed on a tick is true exactly when the
beat number returned by that tick's advance step equals 1. -/
theorem accent_iff_downbeat (beats prevBeat : Nat) :
    isAccent (advance beats prevBeat) = true ↔ advance beats prevBeat = 1 := by
  simp [isAccent]

/-- Claim C3: starting anywhere in `[1, beats]` with `beats ≥ 1`, every number
of advance steps leaves the beat inside `[1, beats]`; the value 0 and values
above `beats` never occur. -/
theorem beat_range_invariant (beats c : Nat) (hb : 1 ≤ beats) (hc1 : 1 ≤ c)
    (hc2 : c ≤ beats) :
    ∀ n, 1 ≤ advanceSeq beats c n ∧ advanceSeq beats c n ≤ beats ∧
      advanceSeq beats c n ≠ 0 ∧ ¬ beats < advanceSeq beats c n := by
  have key : ∀ n, 1 ≤ advanceSeq beats c n ∧ advanceSeq beats c n ≤ beats := by
    intro n
    induction n with
    | zero => exact ⟨hc1, hc2⟩
    | succ n ih =>
      obtain ⟨ih1, ih2⟩ := ih
      simp only [advanceSeq, advance]
      by_cases h : advanceSeq beats c n = beats
      · simp [h, hb]
      · simp only [if_neg h]
        omega
  intro n
  obtain ⟨k1, k2⟩ := key n
  exact ⟨k1, k2, by omega, by omega⟩

/-- Witness for C3 at `beats = 4`, `c = 1`, evaluated at `n = 5`. -/
theorem beat_range_invariant_witness :
    1 ≤ advanceSeq 4 1 5 ∧ advanceSeq 4 1 5 ≤ 4 ∧
    advanceSeq 4 1 5 ≠ 0 ∧ ¬ 4 < advanceSeq 4 1 5 :=
  beat_range_invariant 4 1 (by decide) (by decide) (by decide) 5

/-- Claim C10: the wrap test is strict equality, so from a beat strictly above
`beatsPerMeasure` one advance step returns `currentBeat + 1` with the accent
flag false; advancing never folds an out-of-range beat back into range. -/
theorem advance_beyond_range (beats c : Nat) (h : beats < c) :
    advance beats c = c + 1 ∧ isAccent (advance beats c) = false := by
  have hne : c ≠ beats := by omega
  constructor
  · simp [advance, hne]
  · simp only [advance, if_neg hne, isAccent, beq_eq_false_iff_ne, ne_eq]
    omega

/-- Witness for C10 at `beats = 4`, `c = 7`. -/
theorem advance_beyond_range_witness :
    advance 4 7 = 7 + 1 ∧ isAccent (advance 4 7) = false :=
  advance_beyond_range 4 7 (by decide)

/-- Interval computed by `startMetronome`:
`const intervalMs = (60 / bpm) * 1000` (identical in both variants).
JS numeric division is modelled over ℚ. -/
def intervalMs (bpm : ℚ) : ℚ :=
  60 / bpm * 1000

/-- Tempo clamp of the P1 variant's `handleBpmChange`:
`const clampedBpm = Math.max(40, Math.min(240, newBpm))`. -/
def clampedBpm (newBpm : ℚ) : ℚ :=
  max 40 (min 240 newBpm)

/-- Claim C5: for an effective tempo in `[40, 240]` the interval computed by
start equals `60000 / tempoBpm` ms; 120 BPM gives 500 ms and 90 BPM gives
`2000/3 ≈ 666.67` ms. -/
theorem interval_computation (bpm : ℚ) (h1 : 40 ≤ bpm) (h2 : bpm ≤ 240) :
    intervalMs bpm = 60000 / bpm ∧ intervalMs 120 = 500 ∧
    intervalMs 90 = 2000 / 3 ∧ |intervalMs 90 - 666.67| < 1 / 100 := by
  have hne : bpm ≠ 0 := by positivity
  refine ⟨?_, by norm_num [intervalMs], by norm_num [intervalMs], ?_⟩
  · unfold intervalMs
    field_simp
    ring
  · rw [abs_sub_lt_iff]
    constructor <;> norm_num [intervalMs]

/-- Witness for C5 at `bpm = 120`. -/
theorem interval_computation_witness :
    intervalMs 120 = 60000 / 120 ∧ intervalMs 120 = 500 ∧
    intervalMs 90 = 2000 / 3 ∧ |intervalMs 90 - 666.67| < 1 / 100 :=
  interval_computation 120 (by norm_num) (by norm_num)

/-- Sequencer/tempo state of the P1 variant (the fields `handleBpmChange`
touches). -/
structure P1State where
  bpm : ℚ
  isRunning : Bool
  currentBeat : Nat
deriving DecidableEq

/-- Synchronous part of the P1 variant's `handleBpmChange`: clamps the
request, stores it with `setBpm`, and when running stops the metronome
(which resets the beat to 1); the restart itself is deferred by a timeout. -/
def handleBpmChangeP1 (s : P1State) (newBpm : ℚ) : P1State :=
  let s1 : P1State := { s with bpm := clampedBpm newBpm }
  if s.isRunning then { s1 with currentBeat := 1 } else s1

/-- Amended claim C4 (holds for the P1 variant): the stored tempo is the
request clamped into `[40, 240]`, never a fault; `setTempo 10` stores 40,
`setTempo 500` stores 240, `setTempo 120` stores 120. -/
theorem tempo_clamped_p1 (s : P1State) (newBpm : ℚ) :
    (handleBpmChangeP1 s newBpm).bpm = clampedBpm newBpm ∧
    40 ≤ (handleBpmChangeP1 s newBpm).bpm ∧
    (handleBpmChangeP1 s newBpm).bpm ≤ 240 ∧
    clampedBpm 10 = 40 ∧ clampedBpm 500 = 240 ∧ clampedBpm 120 = 120 := by
  have hbpm : (handleBpmChangeP1 s newBpm).bpm = clampedBpm newBpm := by
    unfold handleBpmChangeP1
    by_cases h : s.isRunning <;> simp [h]
  refine ⟨hbpm, ?_, ?_, ?_, ?_, ?_⟩
  · rw [hbpm]; exact le_max_left _ _
  · rw [hbpm]
    unfold clampedBpm
    rw [max_le_iff]
    exact ⟨by norm_num, le_trans (min_le_left _ _) (by norm_num)⟩
  · unfold clampedBpm; norm_num
  · unfold clampedBpm; norm_num
  · unfold clampedBpm; norm_num

/-- Sound emission in the App variant's `playClick`: the synth call
(`triggerAttackRelease`) is abstracted as a fallible emitter and there is no
try/catch, so a failure propagates to the caller. -/
def playClickApp (emit : Bool → Except String Unit) (accent : Bool) :
    Except String Unit :=
  emit accent

/-- Sound emission in the P1 variant's `playClick`: the synth call is wrapped
in try/catch, and the catch only logs (`console.error`), so the function
always returns normally. -/
def playClickP1 (emit : Bool → Except String Unit) (accent : Bool) :
    Except String Unit :=
  match emit accent with
  | .ok u => .ok u
  | .error _ => .ok ()

/-- Interval-callback body in the App variant: compute the next beat, play
the click, and store the next beat; an emitter failure is uncaught, so it
escapes before the next beat is stored. -/
def tickApp (emit : Bool → Except String Unit) (beats prevBeat : Nat) :
    Except String Nat :=
  let nextBeat := advance beats prevBeat
  match playClickApp emit (isAccent nextBeat) with
  | .ok _ => .ok nextBeat
  | .error e => .error e

/-- Interval-callback body in the P1 variant: identical shape, but the click
goes through the catching `playClickP1`. -/
def tickP1 (emit : Bool → Except String Unit) (beats prevBeat : Nat) :
    Except String Nat :=
  let nextBeat := advance beats prevBeat
  match playClickP1 emit (isAccent nextBeat) with
  | .ok _ => .ok nextBeat
  | .error e => .error e

/-- Result of one timer fire in the P1 variant, seen from outside: the beat
stored afterwards and whether the timer is still armed. -/
structure TickOutcome where
  currentBeat : Nat
  timerArmed : Bool
deriving DecidableEq

/-- P1 variant interval callback with its outer try/catch: an error that
reaches it forces `stopMetronome` (timer cleared, beat reset to 1). -/
def intervalStepP1 (emit : Bool → Except String Unit) (beats prevBeat : Nat) :
    TickOutcome :=
  match tickP1 emit beats prevBeat with
  | .ok n => ⟨n, true⟩
  | .error _ => ⟨1, false⟩

/-- Counterexample to claim C9 on the App variant: with an emitter that
throws, the failure escapes the tick callback as an error and the beat is
not advanced (the successful tick from beat 1 in 4/4 would store beat 2). -/
theorem tick_failure_escapes_app :
    tickApp (fun _ => .error "synth failure") 4 1 = .error "synth failure" ∧
    tickApp (fun _ => .error "synth failure") 4 1 ≠ .ok (advance 4 1) := by
  constructor <;> simp [tickApp, playClickApp, advance, isAccent]

/-- Amended claim C9 (holds for the P1 variant): whatever the emitter does,
every tick completes: the failure is swallowed inside `playClickP1`, the
timer stays armed, and the stored beat is the advanced one, exactly as on a
successful tick. -/
theorem tick_failure_contained_p1 (emit : Bool → Except String Unit)
    (beats prevBeat : Nat) :
    intervalStepP1 emit beats prevBeat = ⟨advance beats prevBeat, true⟩ ∧
    tickP1 emit beats prevBeat = .ok (advance beats prevBeat) := by
  have h : tickP1 emit beats prevBeat = .ok (advance beats prevBeat) := by
    unfold tickP1 playClickP1
    cases h : emit (isAccent (advance beats prevBeat)) <;> simp [h]
  exact ⟨by simp [intervalStepP1, h], h⟩

/-- Time signature record from the sources. -/
structure TimeSignature where
  beats : Nat
  noteValue : Nat
  label : String
deriving DecidableEq

/-- Preset catalog `TIME_SIGNATURES` from the sources. -/
def TIME_SIGNATURES : List TimeSignature :=
  [⟨2, 4, "2/4"⟩, ⟨3, 4, "3/4"⟩, ⟨4, 4, "4/4"⟩, ⟨6, 8, "6/8"⟩,
   ⟨3, 8, "3/8"⟩, ⟨5, 4, "5/4"⟩, ⟨7, 4, "7/4"⟩]

/-- One audible click. `direct` is the hard-coded `playClick(true)` issued by
`startMetronome` itself before arming the timer; `viaAdvance` is a click
issued from the interval callback after a sequencer advance. -/
inductive ClickEvent where
  | direct (accent : Bool)
  | viaAdvance (beatNumber : Nat) (accent : Bool)
deriving DecidableEq

/-- One host timer created by `window.setInterval`: its handle, its period,
and the `selectedTimeSignature.beats` value captured by its callback. -/
structure Timer where
  id : Nat
  periodMs : ℚ
  beats : Nat
deriving DecidableEq

/-- Component store of the App variant plus the host timer table. `live`
holds the timers the host will keep firing; `intervalRef` mirrors the ref to
the most recently armed handle; `nextTimerId` generates fresh handles. -/
structure AppState where
  bpm : ℚ
  isRunning : Bool
  selectedTimeSignature : TimeSignature
  currentBeat : Nat
  intervalRef : Option Nat
  live : List Timer
  nextTimerId : Nat
deriving DecidableEq

/-- Host `clearInterval`: the timer with the given handle never fires again. -/
def clearTimer (t : Nat) (live : List Timer) : List Timer :=
  live.filter (fun tm => tm.id != t)

/-- Clearing guard shared by `startMetronome` and `stopMetronome`:
`if (intervalRef.current) clearInterval(intervalRef.current)`. This is the
timer table after that guard has run. -/
def pendingLive (s : AppState) : List Timer :=
  match s.intervalRef with
  | some t => clearTimer t s.live
  | none => s.live

/-- Body of `startMetronome` executed with the render-captured values `bpm`
and `sig`: clear any timer named by the ref, reset the beat to 1, play the
first click as the hard-coded `playClick(true)`, then arm a fresh timer at
`intervalMs bpm` whose callback captured `sig.beats`. -/
def startMetronomeWith (bpm : ℚ) (sig : TimeSignature) (s : AppState) :
    AppState × List ClickEvent :=
  ({ s with currentBeat := 1,
            intervalRef := some s.nextTimerId,
            live := ⟨s.nextTimerId, intervalMs bpm, sig.beats⟩ :: pendingLive s,
            nextTimerId := s.nextTimerId + 1 },
   [ClickEvent.direct true])

/-- `startMetronome` invoked fresh from a render whose captured values agree
with the store. -/
def startMetronome (s : AppState) : AppState × List ClickEvent :=
  startMetronomeWith s.bpm s.selectedTimeSignature s

/-- `stopMetronome`: clear the armed timer, null the ref, reset the beat. -/
def stopMetronome (s : AppState) : AppState :=
  { s with live := pendingLive s, intervalRef := none, currentBeat := 1 }

/-- App variant `handleBpmChange`: `setBpm(newBpm)` updates the store, but
the `startMetronome` closure it then calls was created by the current render
and still reads that render's `bpm` and `selectedTimeSignature`, so a
restart uses the stale tempo `s.bpm`, not `newBpm`. -/
def handleBpmChange (s : AppState) (newBpm : ℚ) :
    AppState × List ClickEvent :=
  let s1 : AppState := { s with bpm := newBpm }
  if s.isRunning then
    startMetronomeWith s.bpm s.selectedTimeSignature (stopMetronome s1)
  else (s1, [])

/-- App variant `handleTimeSignatureChange`: same shape and same stale
closure, so a restarted callback still counts the old signature's beats. -/
def handleTimeSignatureChange (s : AppState) (sig : TimeSignature) :
    AppState × List ClickEvent :=
  let s1 : AppState := { s with selectedTimeSignature := sig }
  if s.isRunning then
    startMetronomeWith s.bpm s.selectedTimeSignature (stopMetronome s1)
  else (s1, [])

/-- One fire of host timer `tm`: only live timers fire; the callback advances
the beat with the captured measure length and plays the resulting click. -/
def fireTimer (s : AppState) (tm : Timer) : AppState × List ClickEvent :=
  if tm ∈ s.live then
    ({ s with currentBeat := advance tm.beats s.currentBeat },
     [ClickEvent.viaAdvance (advance tm.beats s.currentBeat)
        (isAccent (advance tm.beats s.currentBeat))])
  else (s, [])

/-- Commands the UI layer issues to the playback controller. -/
inductive Cmd where
  | start
  | stop
  | setTempo (newBpm : ℚ)
  | setTimeSig (sig : TimeSignature)

/-- Effect of one command on the store, from `toggleMetronome`'s two branches
and the two change handlers. -/
def applyCmd (s : AppState) : Cmd → AppState
  | .start => (startMetronome { s with isRunning := true }).1
  | .stop => stopMetronome { s with isRunning := false }
  | .setTempo newBpm => (handleBpmChange s newBpm).1
  | .setTimeSig sig => (handleTimeSignatureChange s sig).1

/-- Run a command sequence against the store. -/
def runCmds (s : AppState) (cs : List Cmd) : AppState :=
  cs.foldl applyCmd s

/-- Initial store, from the `useState` initial values: 120 BPM, not running,
4/4 (`TIME_SIGNATURES[2]`), beat 1, no armed timer. -/
def initState : AppState :=
  { bpm := 120, isRunning := false,
    selectedTimeSignature := TIME_SIGNATURES[2],
    currentBeat := 1, intervalRef := none, live := [], nextTimerId := 0 }

/-- Claim C6: from any prior controller state, stop then start leaves the
beat at 1, and the single click start emits is the hard-coded accented
`playClick(true)` — a `direct` click, distinct from every click produced
through the sequencer's advance. -/
theorem stop_start_resets_beat (s : AppState) :
    (startMetronome (stopMetronome s)).1.currentBeat = 1 ∧
    (startMetronome (stopMetronome s)).2 = [ClickEvent.direct true] ∧
    ∀ n a, ClickEvent.direct true ≠ ClickEvent.viaAdvance n a := by
  exact ⟨rfl, rfl, fun n a => by simp⟩

/-- Counterexample to claim C4 on the App variant: `handleBpmChange` stores
the requested tempo without clamping, so `setTempo 10` leaves the effective
tempo at 10, not 40. -/
theorem tempo_not_clamped_app :
    (handleBpmChange initState 10).1.bpm = 10 ∧ (10 : ℚ) ≠ 40 := by
  constructor
  · rfl
  · norm_num

/-- Running state for the C8 scenario: started from the initial store
(120 BPM, 4/4); timer handle 0 is armed at `intervalMs 120 = 500` ms. -/
def runningAt120 : AppState :=
  (startMetronome { initState with isRunning := true }).1

/-- Claim C8 at its failing input (code bug): changing tempo to 90 while
running at 120 BPM does stop, restart, and reset the beat to 1, and the
store now reads 90 BPM — but the freshly armed timer's period is
`intervalMs 120 = 500` ms, computed from the stale `bpm` captured by the
render closure, not the `60000 / 90 = 2000/3 ≈ 666.67` ms the claim (and the
code's own "restart with new tempo" comment) requires. -/
theorem tempo_change_keeps_stale_interval :
    (handleBpmChange runningAt120 90).1.bpm = 90 ∧
    (handleBpmChange runningAt120 90).1.currentBeat = 1 ∧
    (handleBpmChange runningAt120 90).1.live = [⟨1, intervalMs 120, 4⟩] ∧
    intervalMs 120 = 500 ∧ (500 : ℚ) ≠ 60000 / 90 := by
  refine ⟨rfl, rfl, rfl, by norm_num [intervalMs], by norm_num⟩

/-- Timer-table invariant: either no live timer, or exactly the one named by
the ref, with an already-allocated handle. -/
def TimerInv (s : AppState) : Prop :=
  s.live = [] ∨
    ∃ tm, s.live = [tm] ∧ s.intervalRef = some tm.id ∧ tm.id < s.nextTimerId

theorem pendingLive_subset {s : AppState} {tm : Timer}
    (h : tm ∈ pendingLive s) : tm ∈ s.live := by
  unfold pendingLive at h
  cases href : s.intervalRef with
  | none => rw [href] at h; exact h
  | some t => rw [href] at h; exact List.mem_of_mem_filter h

theorem pendingLive_nil {s : AppState} (h : TimerInv s) : pendingLive s = [] := by
  unfold pendingLive
  rcases h with h | ⟨tm, hl, hr, -⟩
  · cases href : s.intervalRef <;> simp [h, clearTimer]
  · rw [hr, hl]
    simp [clearTimer]

theorem timerInv_start (bpm : ℚ) (sig : TimeSignature) (s : AppState)
    (h : TimerInv s) : TimerInv (startMetronomeWith bpm sig s).1 := by
  right
  refine ⟨⟨s.nextTimerId, intervalMs bpm, sig.beats⟩, ?_, rfl, ?_⟩
  · show (⟨s.nextTimerId, intervalMs bpm, sig.beats⟩ : Timer) :: pendingLive s = _
    rw [pendingLive_nil h]
  · exact Nat.lt_succ_self _

theorem timerInv_stop (s : AppState) (h : TimerInv s) :
    TimerInv (stopMetronome s) := by
  left
  show pendingLive s = []
  exact pendingLive_nil h

theorem timerInv_applyCmd (s : AppState) (c : Cmd) (h : TimerInv s) :
    TimerInv (applyCmd s c) := by
  cases c with
  | start => exact timerInv_start _ _ _ h
  | stop => exact timerInv_stop _ h
  | setTempo newBpm =>
    show TimerInv (handleBpmChange s newBpm).1
    unfold handleBpmChange
    by_cases hrun : s.isRunning = true
    · rw [if_pos hrun]
      exact timerInv_start _ _ _ (timerInv_stop _ h)
    · rw [if_neg hrun]
      exact h
  | setTimeSig sig =>
    show TimerInv (handleTimeSignatureChange s sig).1
    unfold handleTimeSignatureChange
    by_cases hrun : s.isRunning = true
    · rw [if_pos hrun]
      exact timerInv_start _ _ _ (timerInv_stop _ h)
    · rw [if_neg hrun]
      exact h

theorem timerInv_runCmds (s : AppState) (cs : List Cmd) (h : TimerInv s) :
    TimerInv (runCmds s cs) := by
  induction cs generalizing s with
  | nil => exact h
  | cons c cs ih => exact ih (applyCmd s c) (timerInv_applyCmd s c h)

theorem dead_start (bpm : ℚ) (sig : TimeSignature) (s : AppState)
    (tm : Timer) (hid : tm.id < s.nextTimerId) (hmem : tm ∉ s.live) :
    tm ∉ (startMetronomeWith bpm sig s).1.live := by
  intro hin
  have hin' : tm = ⟨s.nextTimerId, intervalMs bpm, sig.beats⟩ ∨
      tm ∈ pendingLive s := List.mem_cons.mp hin
  rcases hin' with h1 | h2
  · rw [h1] at hid
    exact absurd hid (by simp)
  · exact hmem (pendingLive_subset h2)

theorem dead_applyCmd (s : AppState) (c : Cmd) (tm : Timer)
    (hid : tm.id < s.nextTimerId) (hmem : tm ∉ s.live) :
    tm.id < (applyCmd s c).nextTimerId ∧ tm ∉ (applyCmd s c).live := by
  cases c with
  | start =>
    exact ⟨by simpa [startMetronome, startMetronomeWith, applyCmd] using
      Nat.lt_succ_of_lt hid, dead_start _ _ _ tm hid hmem⟩
  | stop =>
    exact ⟨hid, fun hin => hmem (pendingLive_subset hin)⟩
  | setTempo newBpm =>
    show tm.id < (handleBpmChange s newBpm).1.nextTimerId ∧
      tm ∉ (handleBpmChange s newBpm).1.live
    unfold handleBpmChange
    by_cases hrun : s.isRunning = true
    · rw [if_pos hrun]
      constructor
      · exact Nat.lt_succ_of_lt hid
      · exact dead_start _ _ _ tm hid fun hin => hmem (pendingLive_subset hin)
    · rw [if_neg hrun]
      exact ⟨hid, hmem⟩
  | setTimeSig sig =>
    show tm.id < (handleTimeSignatureChange s sig).1.nextTimerId ∧
      tm ∉ (handleTimeSignatureChange s sig).1.live
    unfold handleTimeSignatureChange
    by_cases hrun : s.isRunning = true
    · rw [if_pos hrun]
      constructor
      · exact Nat.lt_succ_of_lt hid
      · exact dead_start _ _ _ tm hid fun hin => hmem (pendingLive_subset hin)
    · rw [if_neg hrun]
      exact ⟨hid, hmem⟩

theorem dead_runCmds (s : AppState) (cs : List Cmd) (tm : Timer)
    (hid : tm.id < s.nextTimerId) (hmem : tm ∉ s.live) :
    tm.id < (runCmds s cs).nextTimerId ∧ tm ∉ (runCmds s cs).live := by
  induction cs generalizing s with
  | nil => exact ⟨hid, hmem⟩
  | cons c cs ih =>
    obtain ⟨h1, h2⟩ := dead_applyCmd s c tm hid hmem
    exact ih (applyCmd s c) h1 h2

/-- Claim C7: after any sequence of start, stop, setTempo, setTimeSignature
commands at most one host timer is live (start clears the previously armed
timer before arming a fresh one), and a timer that is dead with an
already-allocated handle stays dead under every further command sequence:
firing it is a no-op that emits no click. -/
theorem at_most_one_timer (cs : List Cmd) :
    (runCmds initState cs).live.length ≤ 1 ∧
    ∀ tm : Timer, tm.id < (runCmds initState cs).nextTimerId →
      tm ∉ (runCmds initState cs).live →
      ∀ cs' : List Cmd,
        tm ∉ (runCmds (runCmds initState cs) cs').live ∧
        fireTimer (runCmds (runCmds initState cs) cs') tm =
          (runCmds (runCmds initState cs) cs', []) := by
  have hinv : TimerInv (runCmds initState cs) :=
    timerInv_runCmds initState cs (Or.inl rfl)
  constructor
  · rcases hinv with h | ⟨tm, hl, -, -⟩
    · simp [h]
    · simp [hl]
  · intro tm hid hmem cs'
    obtain ⟨-, h2⟩ := dead_runCmds (runCmds initState cs) cs' tm hid hmem
    exact ⟨h2, by simp [fireTimer, h2]⟩

/-- Witness for C7: after start-then-stop, the timer armed by the start
(handle 0) is dead; running a further start never revives it and firing it
does nothing. -/
theorem at_most_one_timer_witness :
    (⟨0, intervalMs 120, 4⟩ : Timer) ∉
        (runCmds (runCmds initState [Cmd.start, Cmd.stop]) [Cmd.start]).live ∧
    fireTimer (runCmds (runCmds initState [Cmd.start, Cmd.stop]) [Cmd.start])
        ⟨0, intervalMs 120, 4⟩ =
      (runCmds (runCmds initState [Cmd.start, Cmd.stop]) [Cmd.start], []) :=
  (at_most_one_timer [Cmd.start, Cmd.stop]).2 ⟨0, intervalMs 120, 4⟩
    (by decide) (by decide) [Cmd.start]

end Metronome
